import Mathlib

/-!
Verification of the progress-event coalescing and throttled-rendering engine
of the crimelapse job-progress panel (ProgressPanel component).

The component keeps a committed display state (`completed`, `total`, the
numbered detail log `details`) and a pending record (`pendingCompleted`,
`pendingIncrement`, `pendingTotal`, `pendingDetailIndex`, `pendingDetails`).
Incoming payloads are merged into the pending record by the listener callback
(`ingest` below) and committed by the throttled flush (`flushProgressUpdates`).
Numbers are modelled as integers, the timer handle as a Boolean flag plus an
explicit count of outstanding scheduled timeouts, and the pub/sub subscription
as the topic string the component is currently listening on.
-/

namespace Crimelapse

/-- Raw update payload delivered on the progress channel:
`{ progress?: number, progressInc?: number, total?: number, detail?: string }`,
all fields optional. -/
structure ProgressPayload where
  progress : Option Int
  progressInc : Option Int
  total : Option Int
  detail : Option String
  deriving Repr, DecidableEq

/-- Whole component state: committed display state, timer state, pending
record and the currently subscribed topic. `armedTimers` counts the
outstanding `setTimeout` registrations so that timer discipline is visible. -/
structure PanelState where
  completed : Int
  total : Int
  details : List String
  flushHandle : Bool
  armedTimers : Nat
  pendingCompleted : Option Int
  pendingIncrement : Int
  pendingTotal : Option Int
  pendingDetailIndex : Nat
  pendingDetails : List String
  subscribedTopic : Option String
  deriving Repr, DecidableEq

/-- The component's state right after setup, before any payload arrives. -/
def initState : PanelState :=
  { completed := 0
    total := 0
    details := []
    flushHandle := false
    armedTimers := 0
    pendingCompleted := none
    pendingIncrement := 0
    pendingTotal := none
    pendingDetailIndex := 0
    pendingDetails := []
    subscribedTopic := none }

/-- JavaScript truthiness of a string: truthy iff non-empty.  Used by the
listener's `if (payload.detail)` test. -/
def strTruthy (s : String) : Bool :=
  !(s == "")

/-- The detail line as formatted at arrival time:
`` `[n] text` `` with the freshly assigned sequence number `n`. -/
def fmtDetail (n : Nat) (d : String) : String :=
  "[" ++ toString n ++ "] " ++ d

/-- Source function `cancelFlushTimer`: clear the pending timeout, if any. -/
def cancelFlushTimer (s : PanelState) : PanelState :=
  if s.flushHandle then
    { s with flushHandle := false, armedTimers := s.armedTimers - 1 }
  else s

/-- Source function `resetPending`: discard the whole pending record,
sequence counter included. -/
def resetPending (s : PanelState) : PanelState :=
  { s with
    pendingCompleted := none
    pendingIncrement := 0
    pendingTotal := none
    pendingDetailIndex := 0
    pendingDetails := [] }

/-- Source function `clearDisplayedProgress`: reset the committed display state. -/
def clearDisplayedProgress (s : PanelState) : PanelState :=
  { s with completed := 0, total := 0, details := [] }

/-- Log eviction as performed at the end of `flushProgressUpdates`: when more
than 10500 lines are committed, keep only the most recent 10000
(`details.value = details.value.slice(details.value.length - 10000)`). -/
def evict (l : List String) : List String :=
  if l.length > 10500 then l.drop (l.length - 10000) else l

/-- Source function `flushProgressUpdates`: commit the pending record onto
the display state.
Total and absolute progress are last-write-wins, the accumulated increment is
added on top, pending detail lines are appended and the log is trimmed. -/
def flushProgressUpdates (s : PanelState) : PanelState :=
  let s1 :=
    match s.pendingTotal with
    | some t => { s with total := t, pendingTotal := none }
    | none => s
  let s2 :=
    match s1.pendingCompleted with
    | some c => { s1 with completed := c, pendingCompleted := none }
    | none => s1
  let s3 :=
    if s2.pendingIncrement ≠ 0 then
      { s2 with completed := s2.completed + s2.pendingIncrement, pendingIncrement := 0 }
    else s2
  if s3.pendingDetails = [] then s3
  else
    { s3 with details := evict (s3.details ++ s3.pendingDetails), pendingDetails := [] }

/-- Source function `scheduleProgressFlush`: arm a timeout unless one is
already armed. -/
def scheduleProgressFlush (s : PanelState) : PanelState :=
  if s.flushHandle then s
  else { s with flushHandle := true, armedTimers := s.armedTimers + 1 }

/-- The armed timeout firing: the callback nulls the handle and runs
`flushProgressUpdates`.  With no armed timeout nothing happens. -/
def fireFlushTimer (s : PanelState) : PanelState :=
  if s.flushHandle then
    flushProgressUpdates { s with flushHandle := false, armedTimers := s.armedTimers - 1 }
  else s

/-- The listener callback body: merge one payload into the pending record,
then schedule a flush.  Numeric fields are guarded by
`typeof x === "number"`, the detail field by plain truthiness. -/
def ingest (p : ProgressPayload) (s : PanelState) : PanelState :=
  let s1 :=
    match p.progress with
    | some v => { s with pendingCompleted := some v }
    | none => s
  let s2 :=
    match p.progressInc with
    | some v => { s1 with pendingIncrement := s1.pendingIncrement + v }
    | none => s1
  let s3 :=
    match p.total with
    | some v => { s2 with pendingTotal := some v }
    | none => s2
  let s4 :=
    match p.detail with
    | some d =>
        if strTruthy d then
          { s3 with
            pendingDetailIndex := s3.pendingDetailIndex + 1
            pendingDetails := s3.pendingDetails ++ [fmtDetail (s3.pendingDetailIndex + 1) d] }
        else s3
    | none => s3
  scheduleProgressFlush s4

/-- Ingest a whole arrival sequence, in order. -/
def ingestAll (s : PanelState) (ps : List ProgressPayload) : PanelState :=
  ps.foldl (fun t p => ingest p t) s

/-- The event topic the component listens on: `` `progress:${jobId}` ``.
JavaScript template-literal interpolation stringifies a null job id to
`"null"`. -/
def topicOf (jobId : Option String) : String :=
  "progress:" ++ (match jobId with | some j => j | none => "null")

/-- Source function `startListening(jobId)`: clear committed state, clear
pending state,
cancel the timer, drop the previous subscription and listen on the new
topic.  This is the `bind` operation of the spec; the code runs it on every
change of the `jobId` prop. -/
def startListening (jobId : Option String) (s : PanelState) : PanelState :=
  let s1 := clearDisplayedProgress s
  let s2 := resetPending s1
  let s3 := cancelFlushTimer s2
  { s3 with subscribedTopic := some (topicOf jobId) }

/-- Delivery of a payload published on `topic`: it reaches `ingest` only when
the component is currently subscribed to that topic. -/
def deliver (topic : String) (p : ProgressPayload) (s : PanelState) : PanelState :=
  if s.subscribedTopic = some topic then ingest p s else s

/-- Computed ref `linearProgress`: `total === 0 ? 0 : completed / total`. -/
def linearProgress (s : PanelState) : ℚ :=
  if s.total = 0 then 0 else (s.completed : ℚ) / (s.total : ℚ)

/-- The `:indeterminate="total === 0"` binding on the progress bar. -/
def indeterminateFlag (s : PanelState) : Bool :=
  s.total == 0

/-- Last-write-wins merge of one payload's `progress` field. -/
def mergeAbs (p : ProgressPayload) (a : Option Int) : Option Int :=
  match p.progress with
  | some v => some v
  | none => a

/-- Additive merge of one payload's `progressInc` field. -/
def mergeInc (p : ProgressPayload) (i : Int) : Int :=
  match p.progressInc with
  | some v => i + v
  | none => i

/-- Last-write-wins merge of one payload's `total` field. -/
def mergeTot (p : ProgressPayload) (a : Option Int) : Option Int :=
  match p.total with
  | some v => some v
  | none => a

/-- The detail line a payload contributes: its `detail` field when truthy. -/
def detailTruthy (p : ProgressPayload) : Option String :=
  match p.detail with
  | some d => if strTruthy d then some d else none
  | none => none

/-- Last absolute progress value carried by an arrival sequence, if any. -/
def lastAbs (ps : List ProgressPayload) : Option Int :=
  ps.foldl (fun a p => mergeAbs p a) none

/-- Sum of all increments carried by an arrival sequence. -/
def sumIncs (ps : List ProgressPayload) : Int :=
  ps.foldl (fun a p => mergeInc p a) 0

/-- Last total value carried by an arrival sequence, if any. -/
def lastTot (ps : List ProgressPayload) : Option Int :=
  ps.foldl (fun a p => mergeTot p a) none

/-- The truthy detail lines of an arrival sequence, in arrival order. -/
def truthyDetails (ps : List ProgressPayload) : List String :=
  ps.filterMap detailTruthy

/-- Tag a list of detail lines with consecutive sequence numbers starting
right after `n`. -/
def numberFrom : Nat → List String → List String
  | _, [] => []
  | n, d :: ds => fmtDetail (n + 1) d :: numberFrom (n + 1) ds

/-- The pending record is empty and no flush is scheduled: the state is at
the start of a throttle window. -/
def windowStart (s : PanelState) : Prop :=
  s.pendingCompleted = none ∧ s.pendingIncrement = 0 ∧ s.pendingTotal = none ∧
    s.pendingDetails = [] ∧ s.flushHandle = false ∧ s.armedTimers = 0

instance (s : PanelState) : Decidable (windowStart s) := by
  unfold windowStart
  infer_instance

theorem ingest_eq (p : ProgressPayload) (s : PanelState) :
    ingest p s = scheduleProgressFlush
      { s with
        pendingCompleted := mergeAbs p s.pendingCompleted
        pendingIncrement := mergeInc p s.pendingIncrement
        pendingTotal := mergeTot p s.pendingTotal
        pendingDetailIndex := s.pendingDetailIndex +
          (match detailTruthy p with | some _ => 1 | none => 0)
        pendingDetails := s.pendingDetails ++
          (match detailTruthy p with
           | some d => [fmtDetail (s.pendingDetailIndex + 1) d]
           | none => []) } := by
  rcases p with ⟨pr, pi, pt, pd⟩
  cases pr <;> cases pi <;> cases pt <;> cases pd <;>
    simp only [ingest, mergeAbs, mergeInc, mergeTot, detailTruthy] <;>
    first
      | rfl
      | (split_ifs <;> simp)
      | simp

theorem schedule_preserves (s : PanelState) :
    (scheduleProgressFlush s).completed = s.completed ∧
    (scheduleProgressFlush s).total = s.total ∧
    (scheduleProgressFlush s).details = s.details ∧
    (scheduleProgressFlush s).pendingCompleted = s.pendingCompleted ∧
    (scheduleProgressFlush s).pendingIncrement = s.pendingIncrement ∧
    (scheduleProgressFlush s).pendingTotal = s.pendingTotal ∧
    (scheduleProgressFlush s).pendingDetailIndex = s.pendingDetailIndex ∧
    (scheduleProgressFlush s).pendingDetails = s.pendingDetails ∧
    (scheduleProgressFlush s).subscribedTopic = s.subscribedTopic := by
  unfold scheduleProgressFlush
  split <;> simp

theorem schedule_flushHandle (s : PanelState) :
    (scheduleProgressFlush s).flushHandle = true ∨
      (scheduleProgressFlush s).flushHandle = s.flushHandle := by
  unfold scheduleProgressFlush
  split <;> simp

theorem ingest_flushHandle (p : ProgressPayload) (s : PanelState) :
    (ingest p s).flushHandle = true := by
  rw [ingest_eq]
  unfold scheduleProgressFlush
  split <;> simp_all

theorem ingest_armedTimers (p : ProgressPayload) (s : PanelState) :
    (ingest p s).armedTimers =
      if s.flushHandle then s.armedTimers else s.armedTimers + 1 := by
  rw [ingest_eq]
  unfold scheduleProgressFlush
  split <;> simp_all

theorem ingestAll_nil (s : PanelState) : ingestAll s [] = s := rfl

theorem ingestAll_cons (s : PanelState) (p : ProgressPayload) (ps : List ProgressPayload) :
    ingestAll s (p :: ps) = ingestAll (ingest p s) ps := rfl

theorem ingest_committed (p : ProgressPayload) (s : PanelState) :
    (ingest p s).completed = s.completed ∧ (ingest p s).total = s.total ∧
      (ingest p s).details = s.details ∧ (ingest p s).subscribedTopic = s.subscribedTopic := by
  rw [ingest_eq]
  have h := schedule_preserves
    { s with
      pendingCompleted := mergeAbs p s.pendingCompleted
      pendingIncrement := mergeInc p s.pendingIncrement
      pendingTotal := mergeTot p s.pendingTotal
      pendingDetailIndex := s.pendingDetailIndex +
        (match detailTruthy p with | some _ => 1 | none => 0)
      pendingDetails := s.pendingDetails ++
        (match detailTruthy p with
         | some d => [fmtDetail (s.pendingDetailIndex + 1) d]
         | none => []) }
  exact ⟨h.1, h.2.1, h.2.2.1, h.2.2.2.2.2.2.2.2⟩

theorem ingest_pendingCompleted (p : ProgressPayload) (s : PanelState) :
    (ingest p s).pendingCompleted = mergeAbs p s.pendingCompleted := by
  rw [ingest_eq]
  unfold scheduleProgressFlush
  split <;> rfl

theorem ingest_pendingIncrement (p : ProgressPayload) (s : PanelState) :
    (ingest p s).pendingIncrement = mergeInc p s.pendingIncrement := by
  rw [ingest_eq]
  unfold scheduleProgressFlush
  split <;> rfl

theorem ingest_pendingTotal (p : ProgressPayload) (s : PanelState) :
    (ingest p s).pendingTotal = mergeTot p s.pendingTotal := by
  rw [ingest_eq]
  unfold scheduleProgressFlush
  split <;> rfl

theorem ingest_pendingDetailIndex (p : ProgressPayload) (s : PanelState) :
    (ingest p s).pendingDetailIndex =
      s.pendingDetailIndex + (match detailTruthy p with | some _ => 1 | none => 0) := by
  rw [ingest_eq]
  unfold scheduleProgressFlush
  split <;> rfl

theorem ingest_pendingDetails (p : ProgressPayload) (s : PanelState) :
    (ingest p s).pendingDetails =
      s.pendingDetails ++
        (match detailTruthy p with
         | some d => [fmtDetail (s.pendingDetailIndex + 1) d]
         | none => []) := by
  rw [ingest_eq]
  unfold scheduleProgressFlush
  split <;> rfl

theorem ingestAll_committed (ps : List ProgressPayload) : ∀ s : PanelState,
    (ingestAll s ps).completed = s.completed ∧ (ingestAll s ps).total = s.total ∧
      (ingestAll s ps).details = s.details ∧
      (ingestAll s ps).subscribedTopic = s.subscribedTopic := by
  induction ps with
  | nil => intro s; exact ⟨rfl, rfl, rfl, rfl⟩
  | cons p ps ih =>
      intro s
      rw [ingestAll_cons]
      obtain ⟨h1, h2, h3, h4⟩ := ih (ingest p s)
      obtain ⟨g1, g2, g3, g4⟩ := ingest_committed p s
      exact ⟨h1.trans g1, h2.trans g2, h3.trans g3, h4.trans g4⟩

theorem ingestAll_pendingCompleted (ps : List ProgressPayload) : ∀ s : PanelState,
    (ingestAll s ps).pendingCompleted =
      ps.foldl (fun a p => mergeAbs p a) s.pendingCompleted := by
  induction ps with
  | nil => intro s; rfl
  | cons p ps ih =>
      intro s
      rw [ingestAll_cons, ih (ingest p s), List.foldl_cons, ingest_pendingCompleted]

theorem ingestAll_pendingIncrement (ps : List ProgressPayload) : ∀ s : PanelState,
    (ingestAll s ps).pendingIncrement =
      ps.foldl (fun a p => mergeInc p a) s.pendingIncrement := by
  induction ps with
  | nil => intro s; rfl
  | cons p ps ih =>
      intro s
      rw [ingestAll_cons, ih (ingest p s), List.foldl_cons, ingest_pendingIncrement]

theorem ingestAll_pendingTotal (ps : List ProgressPayload) : ∀ s : PanelState,
    (ingestAll s ps).pendingTotal =
      ps.foldl (fun a p => mergeTot p a) s.pendingTotal := by
  induction ps with
  | nil => intro s; rfl
  | cons p ps ih =>
      intro s
      rw [ingestAll_cons, ih (ingest p s), List.foldl_cons, ingest_pendingTotal]

theorem ingestAll_pendingDetailIndex (ps : List ProgressPayload) : ∀ s : PanelState,
    (ingestAll s ps).pendingDetailIndex =
      s.pendingDetailIndex + (truthyDetails ps).length := by
  induction ps with
  | nil => intro s; rfl
  | cons p ps ih =>
      intro s
      rw [ingestAll_cons, ih (ingest p s), ingest_pendingDetailIndex]
      unfold truthyDetails
      rw [List.filterMap_cons]
      cases h : detailTruthy p <;> simp [h] <;> omega

theorem ingestAll_pendingDetails (ps : List ProgressPayload) : ∀ s : PanelState,
    (ingestAll s ps).pendingDetails =
      s.pendingDetails ++ numberFrom s.pendingDetailIndex (truthyDetails ps) := by
  induction ps with
  | nil => intro s; rw [ingestAll_nil]; simp [truthyDetails, numberFrom]
  | cons p ps ih =>
      intro s
      rw [ingestAll_cons, ih (ingest p s), ingest_pendingDetails, ingest_pendingDetailIndex]
      unfold truthyDetails
      rw [List.filterMap_cons]
      cases h : detailTruthy p <;> simp [h, numberFrom]

theorem ingestAll_flushHandle (ps : List ProgressPayload) : ∀ s : PanelState,
    (ingestAll s ps).flushHandle = (s.flushHandle || !ps.isEmpty) := by
  induction ps with
  | nil => intro s; simp [ingestAll_nil]
  | cons p ps ih =>
      intro s
      rw [ingestAll_cons, ih (ingest p s), ingest_flushHandle]
      simp

theorem ingestAll_armedTimers (ps : List ProgressPayload) : ∀ s : PanelState,
    (ingestAll s ps).armedTimers =
      if s.flushHandle = false ∧ ps ≠ [] then s.armedTimers + 1 else s.armedTimers := by
  induction ps with
  | nil => intro s; simp [ingestAll_nil]
  | cons p ps ih =>
      intro s
      rw [ingestAll_cons, ih (ingest p s), ingest_armedTimers, ingest_flushHandle]
      cases h : s.flushHandle <;> simp [h]

theorem flushProgressUpdates_eq (s : PanelState) :
    flushProgressUpdates s =
      { s with
        total := s.pendingTotal.getD s.total
        completed := s.pendingCompleted.getD s.completed + s.pendingIncrement
        pendingTotal := none
        pendingCompleted := none
        pendingIncrement := 0
        details := if s.pendingDetails = [] then s.details
                   else evict (s.details ++ s.pendingDetails)
        pendingDetails := [] } := by
  rcases s with ⟨c, t, det, fh, ar, pc, pi, pt, pdi, pd, st⟩
  unfold flushProgressUpdates
  cases pt <;> cases pc <;>
    by_cases hpi : pi = 0 <;>
    by_cases hpd : pd = ([] : List String) <;>
    simp_all

theorem foldAbs_split (ps : List ProgressPayload) : ∀ a : Option Int,
    ps.foldl (fun x p => mergeAbs p x) a =
      (match lastAbs ps with | some v => some v | none => a) := by
  induction ps with
  | nil => intro a; rfl
  | cons p ps ih =>
      intro a
      rw [List.foldl_cons, ih (mergeAbs p a)]
      have h2 : lastAbs (p :: ps) =
          (match lastAbs ps with | some v => some v | none => mergeAbs p none) := by
        unfold lastAbs
        rw [List.foldl_cons, ih (mergeAbs p none)]
        rfl
      rw [h2]
      cases lastAbs ps <;> cases hp : p.progress <;> simp [mergeAbs, hp]

theorem foldTot_split (ps : List ProgressPayload) : ∀ a : Option Int,
    ps.foldl (fun x p => mergeTot p x) a =
      (match lastTot ps with | some v => some v | none => a) := by
  induction ps with
  | nil => intro a; rfl
  | cons p ps ih =>
      intro a
      rw [List.foldl_cons, ih (mergeTot p a)]
      have h2 : lastTot (p :: ps) =
          (match lastTot ps with | some v => some v | none => mergeTot p none) := by
        unfold lastTot
        rw [List.foldl_cons, ih (mergeTot p none)]
        rfl
      rw [h2]
      cases lastTot ps <;> cases hp : p.total <;> simp [mergeTot, hp]

theorem foldInc_split (ps : List ProgressPayload) : ∀ i : Int,
    ps.foldl (fun x p => mergeInc p x) i = i + sumIncs ps := by
  induction ps with
  | nil => intro i; simp [sumIncs]
  | cons p ps ih =>
      intro i
      rw [List.foldl_cons, ih (mergeInc p i)]
      have h2 : sumIncs (p :: ps) = mergeInc p 0 + sumIncs ps := by
        unfold sumIncs
        rw [List.foldl_cons, ih (mergeInc p 0)]
        rfl
      rw [h2]
      cases hp : p.progressInc <;> simp [mergeInc, hp] <;> ring

theorem numberFrom_length (ds : List String) : ∀ n : Nat,
    (numberFrom n ds).length = ds.length := by
  induction ds with
  | nil => intro n; rfl
  | cons d ds ih => intro n; simp [numberFrom, ih]

theorem evict_of_le (l : List String) (h : l.length ≤ 10500) : evict l = l := by
  unfold evict
  rw [if_neg (by omega)]

theorem evict_keeps_last_two (l : List String) (a b : String) :
    ∃ pre, evict (l ++ [a, b]) = pre ++ [a, b] := by
  by_cases h : (l ++ [a, b]).length > 10500
  · have hlen : (l ++ [a, b]).length = l.length + 2 := by simp
    refine ⟨l.drop ((l ++ [a, b]).length - 10000), ?_⟩
    unfold evict
    rw [if_pos h, List.drop_append_eq_append_drop]
    have h0 : (l ++ [a, b]).length - 10000 - l.length = 0 := by omega
    rw [h0, List.drop_zero]
  · exact ⟨l, by rw [evict_of_le _ (by omega)]⟩

theorem fireFlushTimer_armed_eq (s : PanelState) (h : s.flushHandle = true) :
    fireFlushTimer s =
      { s with
        flushHandle := false
        armedTimers := s.armedTimers - 1
        total := s.pendingTotal.getD s.total
        completed := s.pendingCompleted.getD s.completed + s.pendingIncrement
        pendingTotal := none
        pendingCompleted := none
        pendingIncrement := 0
        details := if s.pendingDetails = [] then s.details
                   else evict (s.details ++ s.pendingDetails)
        pendingDetails := [] } := by
  unfold fireFlushTimer
  rw [if_pos h, flushProgressUpdates_eq]

theorem fireFlushTimer_idle (s : PanelState) (h : s.flushHandle = false) :
    fireFlushTimer s = s := by
  unfold fireFlushTimer
  rw [if_neg (by simp [h])]

theorem fireFlushTimer_proj (s : PanelState) (h : s.flushHandle = true) :
    (fireFlushTimer s).completed = s.pendingCompleted.getD s.completed + s.pendingIncrement ∧
    (fireFlushTimer s).total = s.pendingTotal.getD s.total ∧
    (fireFlushTimer s).details =
      (if s.pendingDetails = [] then s.details else evict (s.details ++ s.pendingDetails)) ∧
    (fireFlushTimer s).flushHandle = false ∧
    (fireFlushTimer s).armedTimers = s.armedTimers - 1 ∧
    (fireFlushTimer s).pendingCompleted = none ∧
    (fireFlushTimer s).pendingIncrement = 0 ∧
    (fireFlushTimer s).pendingTotal = none ∧
    (fireFlushTimer s).pendingDetails = [] ∧
    (fireFlushTimer s).pendingDetailIndex = s.pendingDetailIndex := by
  rw [fireFlushTimer_armed_eq _ h]
  exact ⟨rfl, rfl, rfl, rfl, rfl, rfl, rfl, rfl, rfl, rfl⟩

theorem startListening_eq (jobId : Option String) (s : PanelState) :
    startListening jobId s =
      { completed := 0
        total := 0
        details := []
        flushHandle := false
        armedTimers := if s.flushHandle then s.armedTimers - 1 else s.armedTimers
        pendingCompleted := none
        pendingIncrement := 0
        pendingTotal := none
        pendingDetailIndex := 0
        pendingDetails := []
        subscribedTopic := some (topicOf jobId) } := by
  unfold startListening clearDisplayedProgress resetPending cancelFlushTimer
  cases h : s.flushHandle <;> simp [h]

/-- The payload carrying no field at all: `{}`. -/
def emptyPayload : ProgressPayload :=
  ⟨none, none, none, none⟩

/-- C9: whenever the committed total is 0 the progress bar is marked
indeterminate and `linearProgress` takes the zero branch instead of
dividing: the division is only reached with a non-zero denominator. -/
theorem c9_indeterminate_total (s : PanelState) (h : s.total = 0) :
    indeterminateFlag s = true ∧ linearProgress s = 0 := by
  constructor
  · simp [indeterminateFlag, h]
  · simp [linearProgress, h]

theorem c9_indeterminate_total_witness :
    indeterminateFlag initState = true ∧ linearProgress initState = 0 :=
  c9_indeterminate_total initState rfl

/-- C10: a payload whose `detail` is the empty string behaves exactly like a
payload with no `detail` field — no pending line, no sequence number
consumed — because the listener tests `detail` by truthiness; the numeric
fields use a `typeof` test, so the value 0 is honored for `progress` and
`total` (and a zero increment flows through the additive merge). -/
theorem c10_empty_detail_like_absent (s : PanelState) :
    ingest ⟨none, none, none, some ""⟩ s = ingest emptyPayload s ∧
    (ingest ⟨none, none, none, some ""⟩ s).pendingDetails = s.pendingDetails ∧
    (ingest ⟨none, none, none, some ""⟩ s).pendingDetailIndex = s.pendingDetailIndex ∧
    (ingest ⟨some 0, none, none, none⟩ s).pendingCompleted = some 0 ∧
    (ingest ⟨none, none, some 0, none⟩ s).pendingTotal = some 0 ∧
    (ingest ⟨none, some 0, none, none⟩ s).pendingIncrement = s.pendingIncrement := by
  refine ⟨rfl, ?_, ?_, ?_, ?_, ?_⟩
  · rw [ingest_pendingDetails]
    simp [detailTruthy, strTruthy]
  · rw [ingest_pendingDetailIndex]
    simp [detailTruthy, strTruthy]
  · rw [ingest_pendingCompleted]
    rfl
  · rw [ingest_pendingTotal]
    rfl
  · rw [ingest_pendingIncrement]
    simp [mergeInc]

/-- C7 counterexample: ingesting the empty payload `{}` from the idle initial
state arms a flush timer (`scheduleProgressFlush` runs unconditionally at the
end of the listener), contradicting the claim that an empty payload never
arms a timer when none is armed. -/
theorem c7_counterexample :
    initState.flushHandle = false ∧
    (ingest emptyPayload initState).flushHandle = true ∧
    (ingest emptyPayload initState).armedTimers = 1 :=
  ⟨rfl, rfl, rfl⟩

/-- C7 amended: ingesting `{}` never changes the pending record or the
committed display state, and never arms a second timer when one is armed —
but when no timer is armed it does arm one (whose flush is then a no-op on
committed state). -/
theorem c7_empty_payload (s : PanelState) :
    (ingest emptyPayload s).completed = s.completed ∧
    (ingest emptyPayload s).total = s.total ∧
    (ingest emptyPayload s).details = s.details ∧
    (ingest emptyPayload s).pendingCompleted = s.pendingCompleted ∧
    (ingest emptyPayload s).pendingIncrement = s.pendingIncrement ∧
    (ingest emptyPayload s).pendingTotal = s.pendingTotal ∧
    (ingest emptyPayload s).pendingDetailIndex = s.pendingDetailIndex ∧
    (ingest emptyPayload s).pendingDetails = s.pendingDetails ∧
    (ingest emptyPayload s).flushHandle = true ∧
    (s.flushHandle = true → ingest emptyPayload s = s) ∧
    (s.flushHandle = false → (ingest emptyPayload s).armedTimers = s.armedTimers + 1) := by
  obtain ⟨h1, h2, h3, h4⟩ := ingest_committed emptyPayload s
  refine ⟨h1, h2, h3, ?_, ?_, ?_, ?_, ?_, ingest_flushHandle _ _, ?_, ?_⟩
  · rw [ingest_pendingCompleted]; rfl
  · rw [ingest_pendingIncrement]; rfl
  · rw [ingest_pendingTotal]; rfl
  · rw [ingest_pendingDetailIndex]; rfl
  · rw [ingest_pendingDetails]; simp [detailTruthy, emptyPayload]
  · intro hf
    unfold ingest emptyPayload scheduleProgressFlush
    simp [hf]
  · intro hf
    rw [ingest_armedTimers, if_neg (by simp [hf])]

theorem c7_empty_payload_witness :
    initState.flushHandle = false ∧
    (ingest emptyPayload initState).completed = initState.completed ∧
    (ingest emptyPayload initState).armedTimers = initState.armedTimers + 1 := by
  obtain ⟨h1, _, _, _, _, _, _, _, _, _, h11⟩ := c7_empty_payload initState
  exact ⟨rfl, h1, h11 rfl⟩

/-- C8 counterexample: binding with a null job handle still establishes a
subscription — the code calls `listen` unconditionally and template-literal
interpolation yields the topic `progress:null` — contradicting the claim
that no new subscription is established for a null handle. -/
theorem c8_counterexample :
    (startListening none initState).subscribedTopic = some "progress:null" ∧
    (startListening none initState).subscribedTopic ≠ none := by
  rw [startListening_eq]
  exact ⟨rfl, by simp⟩

/-- C8 amended: `bind` never fails on a null handle (it is a total state
transition), but a subscription is always established: for every handle the
new topic is `progress:` followed by the stringified handle, which for a
null handle is the literal topic `progress:null`. -/
theorem c8_null_handle_subscribes (s : PanelState) :
    (startListening none s).subscribedTopic = some "progress:null" ∧
    ∀ h : Option String, (startListening h s).subscribedTopic = some (topicOf h) := by
  constructor
  · rw [startListening_eq]; rfl
  · intro h; rw [startListening_eq]

/-- C5: when a flush sees both a pending absolute value and a pending
increment, the absolute value is applied first and the increment added on
top: from any state whose pending increment is clear, ingesting
`progress: a` then `progressInc: i` and flushing commits `a + i`. -/
theorem c5_absolute_then_increment (s : PanelState) (a i : Int)
    (h : s.pendingIncrement = 0) :
    (fireFlushTimer (ingest ⟨none, some i, none, none⟩
        (ingest ⟨some a, none, none, none⟩ s))).completed = a + i := by
  have hfh : (ingest ⟨none, some i, none, none⟩
      (ingest ⟨some a, none, none, none⟩ s)).flushHandle = true :=
    ingest_flushHandle _ _
  rw [fireFlushTimer_armed_eq _ hfh]
  simp only [ingest_pendingCompleted, ingest_pendingIncrement]
  obtain ⟨hc, _, _, _⟩ := ingest_committed (⟨some a, none, none, none⟩ : ProgressPayload) s
  simp [mergeAbs, mergeInc, h]

theorem c5_absolute_then_increment_witness :
    initState.pendingIncrement = 0 ∧
    (fireFlushTimer (ingest ⟨none, some 2, none, none⟩
        (ingest ⟨some 10, none, none, none⟩ initState))).completed = 12 :=
  ⟨rfl, (c5_absolute_then_increment initState 10 2 rfl).trans (by norm_num)⟩

theorem foldAbs_map_inc (incs : List Int) : ∀ a : Option Int,
    ((incs.map fun v => (⟨none, some v, none, none⟩ : ProgressPayload)).foldl
      (fun x p => mergeAbs p x) a) = a := by
  induction incs with
  | nil => intro a; rfl
  | cons v incs ih => intro a; simpa [mergeAbs] using ih a

theorem foldInc_map_inc (incs : List Int) : ∀ i : Int,
    ((incs.map fun v => (⟨none, some v, none, none⟩ : ProgressPayload)).foldl
      (fun x p => mergeInc p x) i) = i + incs.sum := by
  induction incs with
  | nil => intro i; simp
  | cons v incs ih =>
      intro i
      simp only [List.map_cons, List.foldl_cons]
      rw [ih]
      simp [mergeInc]
      ring

/-- C6: increments accumulate by addition and are never lost — from the
start of a throttle window, ingesting any sequence of `progressInc` payloads
and flushing increases the committed completed-count by exactly the sum of
the increments. -/
theorem c6_increments_accumulate (s : PanelState) (incs : List Int)
    (hw : windowStart s) :
    (fireFlushTimer (ingestAll s
        (incs.map fun v => ⟨none, some v, none, none⟩))).completed =
      s.completed + incs.sum := by
  obtain ⟨hpc, hpi, hpt, hpd, hfh, hat⟩ := hw
  rcases incs with _ | ⟨v, rest⟩
  · rw [List.map_nil, ingestAll_nil, fireFlushTimer_idle s hfh]
    simp
  · set ps := ((v :: rest).map fun v => (⟨none, some v, none, none⟩ : ProgressPayload)) with hps
    have hW : (ingestAll s ps).flushHandle = true := by
      rw [ingestAll_flushHandle, hfh, hps]
      simp
    rw [fireFlushTimer_armed_eq _ hW]
    have h1 : (ingestAll s ps).pendingCompleted = none := by
      rw [ingestAll_pendingCompleted, hpc, hps, foldAbs_map_inc]
    have h2 : (ingestAll s ps).pendingIncrement = (v :: rest).sum := by
      rw [ingestAll_pendingIncrement, hpi, hps, foldInc_map_inc]
      simp
    obtain ⟨hc, _, _, _⟩ := ingestAll_committed ps s
    simp [h1, h2, hc]

theorem c6_increments_accumulate_witness :
    windowStart initState ∧
    (fireFlushTimer (ingestAll initState
        ([3, 4].map fun v => ⟨none, some v, none, none⟩))).completed = 7 := by
  have hw : windowStart initState := ⟨rfl, rfl, rfl, rfl, rfl, rfl⟩
  refine ⟨hw, (c6_increments_accumulate initState [3, 4] hw).trans ?_⟩
  norm_num [initState]

/-- C4: rebinding to a job handle resets everything in one step — committed
completed-count and total are 0, the committed log is empty, the whole
pending record (sequence counter included) is cleared, any armed flush timer
is cancelled, and a payload delivered on any topic other than the new
handle's no longer reaches `ingest`. -/
theorem c4_rebind_resets (s : PanelState) (h : Option String)
    (hA : s.armedTimers = if s.flushHandle then 1 else 0) :
    (startListening h s).completed = 0 ∧
    (startListening h s).total = 0 ∧
    (startListening h s).details = [] ∧
    (startListening h s).pendingCompleted = none ∧
    (startListening h s).pendingIncrement = 0 ∧
    (startListening h s).pendingTotal = none ∧
    (startListening h s).pendingDetails = [] ∧
    (startListening h s).pendingDetailIndex = 0 ∧
    (startListening h s).flushHandle = false ∧
    (startListening h s).armedTimers = 0 ∧
    ∀ t p, t ≠ topicOf h → deliver t p (startListening h s) = startListening h s := by
  have hE := startListening_eq h s
  refine ⟨?_, ?_, ?_, ?_, ?_, ?_, ?_, ?_, ?_, ?_, ?_⟩
  · rw [hE]
  · rw [hE]
  · rw [hE]
  · rw [hE]
  · rw [hE]
  · rw [hE]
  · rw [hE]
  · rw [hE]
  · rw [hE]
  · rw [hE]
    cases hf : s.flushHandle <;> simp [hf] at hA ⊢ <;> omega
  · intro t p ht
    have hcond : ¬((startListening h s).subscribedTopic = some t) := by
      rw [hE]
      simp only [Option.some.injEq]
      exact fun he => ht he.symm
    unfold deliver
    rw [if_neg hcond]

theorem c4_rebind_resets_witness :
    (startListening (some "j2") initState).completed = 0 ∧
    (startListening (some "j2") initState).details = [] ∧
    deliver "progress:j1" emptyPayload (startListening (some "j2") initState) =
      startListening (some "j2") initState := by
  obtain ⟨h1, _, h3, _, _, _, _, _, _, _, h11⟩ :=
    c4_rebind_resets initState (some "j2") rfl
  exact ⟨h1, h3, h11 "progress:j1" emptyPayload (by decide)⟩

/-- C2: detail-line sequence numbers are assigned at arrival by the
monotonic counter — ingesting two truthy detail lines in a window and
flushing commits, at the end of the log, the two lines tagged with the two
consecutive numbers following the current counter, in arrival order; the
counter advances by two and is not reset by the flush (only `startListening`
resets it to 0). -/
theorem c2_sequence_numbers (s : PanelState) (da db : String)
    (hw : windowStart s) (ha : da ≠ "") (hb : db ≠ "") :
    (∃ pre,
      (fireFlushTimer (ingest ⟨none, none, none, some db⟩
          (ingest ⟨none, none, none, some da⟩ s))).details =
        pre ++ [fmtDetail (s.pendingDetailIndex + 1) da,
                fmtDetail (s.pendingDetailIndex + 2) db]) ∧
    (fireFlushTimer (ingest ⟨none, none, none, some db⟩
        (ingest ⟨none, none, none, some da⟩ s))).pendingDetailIndex =
      s.pendingDetailIndex + 2 ∧
    ∀ h : Option String,
      (startListening h (fireFlushTimer (ingest ⟨none, none, none, some db⟩
          (ingest ⟨none, none, none, some da⟩ s)))).pendingDetailIndex = 0 := by
  obtain ⟨hpc, hpi, hpt, hpd, hfh, hat⟩ := hw
  have hta : strTruthy da = true := by simp [strTruthy, ha]
  have htb : strTruthy db = true := by simp [strTruthy, hb]
  set w := ingest ⟨none, none, none, some db⟩ (ingest ⟨none, none, none, some da⟩ s)
    with hwdef
  have hW : w.flushHandle = true := ingest_flushHandle _ _
  have hdet : w.pendingDetails =
      s.pendingDetails ++ [fmtDetail (s.pendingDetailIndex + 1) da,
        fmtDetail (s.pendingDetailIndex + 2) db] := by
    rw [hwdef, ingest_pendingDetails, ingest_pendingDetails, ingest_pendingDetailIndex]
    simp [detailTruthy, hta, htb]
  have hidx : w.pendingDetailIndex = s.pendingDetailIndex + 2 := by
    rw [hwdef, ingest_pendingDetailIndex, ingest_pendingDetailIndex]
    simp [detailTruthy, hta, htb]
  obtain ⟨_, _, hd, _⟩ := ingest_committed (⟨none, none, none, some db⟩ : ProgressPayload)
    (ingest ⟨none, none, none, some da⟩ s)
  obtain ⟨_, _, hd2, _⟩ := ingest_committed (⟨none, none, none, some da⟩ : ProgressPayload) s
  have hwd : w.details = s.details := by rw [hwdef, hd, hd2]
  obtain ⟨_, _, hfd, _, _, _, _, _, _, hfi⟩ := fireFlushTimer_proj w hW
  refine ⟨?_, hfi.trans hidx, ?_⟩
  · rw [hfd, hdet, hpd, hwd]
    simp only [List.nil_append]
    have hne : ([fmtDetail (s.pendingDetailIndex + 1) da,
        fmtDetail (s.pendingDetailIndex + 2) db] : List String) ≠ [] := by simp
    rw [if_neg hne]
    exact evict_keeps_last_two s.details _ _
  · intro h
    rw [startListening_eq]

theorem c2_sequence_numbers_witness :
    windowStart initState ∧
    (∃ pre,
      (fireFlushTimer (ingest ⟨none, none, none, some "b"⟩
          (ingest ⟨none, none, none, some "a"⟩ initState))).details =
        pre ++ [fmtDetail 1 "a", fmtDetail 2 "b"]) ∧
    (fireFlushTimer (ingest ⟨none, none, none, some "b"⟩
        (ingest ⟨none, none, none, some "a"⟩ initState))).pendingDetailIndex = 2 := by
  have hw : windowStart initState := ⟨rfl, rfl, rfl, rfl, rfl, rfl⟩
  obtain ⟨h1, h2, _⟩ := c2_sequence_numbers initState "a" "b" hw
    (by decide) (by decide)
  exact ⟨hw, h1, h2⟩

/-- C1: within one throttle window (any payload sequence ingested from an
idle window-start state) at most one timer is ever outstanding, firing the
single armed timer leaves the timer machinery idle (so no second flush can
occur in the window), and that one flush commits the fully merged result of
every ingest: last absolute progress (or the prior committed value) plus the
sum of all increments, last total (or the prior one), and the numbered
detail lines of the window appended to the log under the eviction rule. -/
theorem c1_window_coalescing (s : PanelState) (ps : List ProgressPayload)
    (hw : windowStart s) (hlen : s.details.length ≤ 10500) :
    (∀ n : Nat, (ingestAll s (ps.take n)).armedTimers ≤ 1) ∧
    (fireFlushTimer (ingestAll s ps)).flushHandle = false ∧
    (fireFlushTimer (ingestAll s ps)).armedTimers = 0 ∧
    fireFlushTimer (fireFlushTimer (ingestAll s ps)) = fireFlushTimer (ingestAll s ps) ∧
    (fireFlushTimer (ingestAll s ps)).completed =
      (lastAbs ps).getD s.completed + sumIncs ps ∧
    (fireFlushTimer (ingestAll s ps)).total = (lastTot ps).getD s.total ∧
    (fireFlushTimer (ingestAll s ps)).details =
      evict (s.details ++ numberFrom s.pendingDetailIndex (truthyDetails ps)) := by
  obtain ⟨hpc, hpi, hpt, hpd, hfh, hat⟩ := hw
  have htake : ∀ n : Nat, (ingestAll s (ps.take n)).armedTimers ≤ 1 := by
    intro n
    rw [ingestAll_armedTimers, hat]
    split <;> omega
  by_cases hne : ps = []
  · subst hne
    rw [ingestAll_nil, fireFlushTimer_idle s hfh]
    have hnf : numberFrom s.pendingDetailIndex (truthyDetails []) = [] := rfl
    refine ⟨htake, hfh, hat, fireFlushTimer_idle s hfh, ?_, ?_, ?_⟩
    · simp [lastAbs, sumIncs]
    · simp [lastTot]
    · rw [hnf, List.append_nil, evict_of_le _ hlen]
  · have hWfh : (ingestAll s ps).flushHandle = true := by
      rw [ingestAll_flushHandle, hfh]
      simp [List.isEmpty_iff, hne]
    obtain ⟨hfc, hft, hfd, hffh, hfat, _, _, _, _, _⟩ := fireFlushTimer_proj _ hWfh
    have hWat : (ingestAll s ps).armedTimers = 1 := by
      rw [ingestAll_armedTimers, hat, if_pos ⟨hfh, hne⟩]
    obtain ⟨hc, ht2, hd2, _⟩ := ingestAll_committed ps s
    refine ⟨htake, hffh, ?_, fireFlushTimer_idle _ hffh, ?_, ?_, ?_⟩
    · rw [hfat, hWat]
    · rw [hfc, ingestAll_pendingCompleted, hpc, foldAbs_split,
        ingestAll_pendingIncrement, hpi, foldInc_split, hc]
      cases lastAbs ps <;> simp
    · rw [hft, ingestAll_pendingTotal, hpt, foldTot_split, ht2]
      cases lastTot ps <;> simp
    · rw [hfd, ingestAll_pendingDetails, hpd, hd2]
      simp only [List.nil_append]
      by_cases hnd : numberFrom s.pendingDetailIndex (truthyDetails ps) = []
      · rw [if_pos hnd, hnd, List.append_nil, evict_of_le _ hlen]
      · rw [if_neg hnd]

theorem c1_window_coalescing_witness :
    windowStart initState ∧
    (fireFlushTimer (ingestAll initState [⟨some 5, none, some 10, none⟩])).completed = 5 ∧
    (fireFlushTimer (ingestAll initState [⟨some 5, none, some 10, none⟩])).total = 10 ∧
    (fireFlushTimer (ingestAll initState [⟨some 5, none, some 10, none⟩])).flushHandle
      = false := by
  have hw : windowStart initState := ⟨rfl, rfl, rfl, rfl, rfl, rfl⟩
  obtain ⟨_, hffh, _, _, hc, ht, _⟩ :=
    c1_window_coalescing initState [⟨some 5, none, some 10, none⟩] hw (by decide)
  exact ⟨hw, hc.trans (by decide), ht.trans (by decide), hffh⟩

/-- The payload carrying only the detail line `"x"`, used as the C3
counterexample input. -/
def c3Payload : ProgressPayload :=
  ⟨none, none, none, some "x"⟩

theorem truthyDetails_replicate (n : Nat) :
    truthyDetails (List.replicate n c3Payload) = List.replicate n "x" := by
  induction n with
  | zero => rfl
  | succ n ih =>
      have hd : detailTruthy c3Payload = some "x" := rfl
      rw [List.replicate_succ, List.replicate_succ]
      unfold truthyDetails at ih ⊢
      rw [List.filterMap_cons, hd, ih]

/-- C3 counterexample: a single flush that appends 10001 detail lines to the
empty committed log leaves all 10001 lines committed — not exactly 10000
(the spec's recommended `L_max`) — because the code evicts only once the log
exceeds 10500 lines. -/
theorem c3_counterexample :
    (fireFlushTimer (ingestAll initState
        (List.replicate 10001 c3Payload))).details.length = 10001 ∧
    ¬((fireFlushTimer (ingestAll initState
        (List.replicate 10001 c3Payload))).details.length = 10000) := by
  have hfh : (ingestAll initState (List.replicate 10001 c3Payload)).flushHandle = true := by
    rw [ingestAll_flushHandle, List.replicate_succ]
    rfl
  obtain ⟨_, _, hfd, _, _, _, _, _, _, _⟩ := fireFlushTimer_proj _ hfh
  have hlen1 : (numberFrom 0 (List.replicate 10001 "x")).length = 10001 := by
    rw [numberFrom_length, List.length_replicate]
  have hpdet : (ingestAll initState (List.replicate 10001 c3Payload)).pendingDetails =
      numberFrom 0 (List.replicate 10001 "x") := by
    rw [ingestAll_pendingDetails, truthyDetails_replicate]
    have h0 : initState.pendingDetails = [] := rfl
    have h1 : initState.pendingDetailIndex = 0 := rfl
    rw [h0, h1, List.nil_append]
  have hne : (ingestAll initState (List.replicate 10001 c3Payload)).pendingDetails ≠ [] := by
    rw [hpdet]
    intro hcon
    rw [hcon] at hlen1
    simp at hlen1
  obtain ⟨_, _, hd0, _⟩ := ingestAll_committed (List.replicate 10001 c3Payload) initState
  have hmain : (fireFlushTimer (ingestAll initState
      (List.replicate 10001 c3Payload))).details.length = 10001 := by
    rw [hfd, if_neg hne, hd0]
    have h2 : initState.details = [] := rfl
    rw [h2, List.nil_append, hpdet, evict_of_le _ (by rw [hlen1]; norm_num)]
    exact hlen1
  refine ⟨hmain, ?_⟩
  rw [hmain]
  norm_num

/-- C3 amended: eviction uses hysteresis — a flush whose combined log would
exceed 10500 lines retains exactly the most recent 10000 lines (the final
segment of old log plus new lines, order and original numbering preserved),
while a flush leaving at most 10500 lines keeps every line; so the log is
bounded by 10500, not trimmed to exactly 10000 at every cap-exceeding
flush. -/
theorem c3_bounded_log (s : PanelState) (hne : s.pendingDetails ≠ []) :
    (s.details.length + s.pendingDetails.length > 10500 →
      (flushProgressUpdates s).details =
        (s.details ++ s.pendingDetails).drop
          (s.details.length + s.pendingDetails.length - 10000) ∧
      (flushProgressUpdates s).details.length = 10000) ∧
    (s.details.length + s.pendingDetails.length ≤ 10500 →
      (flushProgressUpdates s).details = s.details ++ s.pendingDetails) := by
  have hd : (flushProgressUpdates s).details = evict (s.details ++ s.pendingDetails) := by
    rw [flushProgressUpdates_eq]
    exact if_neg hne
  have hlen : (s.details ++ s.pendingDetails).length =
      s.details.length + s.pendingDetails.length := List.length_append _ _
  constructor
  · intro hgt
    have hgt2 : (s.details ++ s.pendingDetails).length > 10500 := by omega
    constructor
    · rw [hd]
      unfold evict
      rw [if_pos hgt2, hlen]
    · rw [hd]
      unfold evict
      rw [if_pos hgt2, List.length_drop, hlen]
      omega
  · intro hle
    rw [hd, evict_of_le _ (by omega)]

def c3WitnessState : PanelState :=
  { initState with
    details := List.replicate 10400 "a"
    pendingDetails := List.replicate 200 "b" }

theorem c3_bounded_log_witness :
    c3WitnessState.pendingDetails ≠ [] ∧
    c3WitnessState.details.length + c3WitnessState.pendingDetails.length > 10500 ∧
    (flushProgressUpdates c3WitnessState).details.length = 10000 := by
  have e1 : c3WitnessState.details = List.replicate 10400 "a" := rfl
  have e2 : c3WitnessState.pendingDetails = List.replicate 200 "b" := rfl
  have hne : c3WitnessState.pendingDetails ≠ [] := by
    rw [e2]
    intro hcon
    have hl := congrArg List.length hcon
    rw [List.length_replicate] at hl
    exact absurd hl (by norm_num)
  have hgt : c3WitnessState.details.length + c3WitnessState.pendingDetails.length
      > 10500 := by
    rw [e1, e2, List.length_replicate, List.length_replicate]
    norm_num
  have h := (c3_bounded_log _ hne).1 hgt
  exact ⟨hne, hgt, h.2⟩

end Crimelapse
